import Mathlib

/-!
Verification of the Chirpy service core (src/main.go).

Strings are modelled as lists of characters (`Str := List Char`); every unit
of a Go string is one element of the list.  The functions below are direct
translations of the Go source: `sanitize` of src/main.go lines 53-66, the
chirp-length check and persistence call of the `POST /api/chirps` handler
(lines 97-150), and the email presence classification of the `POST /api/users`
handler (lines 235-241).  Go's `strings.ToLower` is modelled on the ASCII
range, which covers every character the hardcoded blacklist can match.
The password functions live in `internal/auth`, which is not part of the
sources here; they are modelled from the specification and marked as such.
-/

namespace Chirpy

/-- Go strings, modelled as lists of characters. -/
abbrev Str := List Char

/-- Conversion from Lean string literals to the model type. -/
def toChars (s : String) : Str := s.data

/-- Model of Go `strings.Split(s, " ")`: cut the string at every single
occurrence of the space character.  `Split` always returns at least one
(possibly empty) piece, and consecutive separators yield empty pieces. -/
def splitSpace : Str → List Str
  | [] => [[]]
  | c :: cs =>
    let r := splitSpace cs
    if c = ' ' then [] :: r else (c :: r.headI) :: r.tail

/-- Model of Go `strings.Join(ts, " ")`: concatenate the pieces with a single
space between consecutive pieces. -/
def joinSpace : List Str → Str
  | [] => []
  | [t] => t
  | t :: ts => t ++ ' ' :: joinSpace ts

/-- Membership test for the cutset `".,!?"` of the `strings.Trim` call in
`sanitize` (src/main.go line 58). -/
def isPunct (c : Char) : Bool := c == '.' || c == ',' || c == '!' || c == '?'

/-- Model of Go `strings.Trim(v, ".,!?")`: drop characters of the cutset from
both ends of the string. -/
def trimPunct (v : Str) : Str :=
  ((v.dropWhile isPunct).reverse.dropWhile isPunct).reverse

/-- Model of Go `strings.ToLower` on one character, restricted to the ASCII
range (the blacklist words are pure ASCII). -/
def toLowerChar (c : Char) : Char :=
  if 'A' ≤ c ∧ c ≤ 'Z' then Char.ofNat (c.toNat + 32) else c

/-- The hardcoded blacklist `badWords` of `sanitize` (src/main.go line 56). -/
def badWords : List Str := [toChars "kerfuffle", toChars "sharbert", toChars "fornax"]

/-- One iteration of the loop body of `sanitize` (src/main.go lines 57-63):
trim the punctuation cutset, lowercase, and compare against the blacklist;
on a match the whole original token is replaced by the mask `"****"`. -/
def maskToken (v : Str) : Str :=
  let clean := (trimPunct v).map toLowerChar
  if badWords.contains clean then toChars "****" else v

/-- Translation of `sanitize` (src/main.go lines 53-66): split on single
spaces, accumulate the masked tokens in order, and rejoin with single
spaces. -/
def sanitize (s : Str) : Str :=
  let strSlice := splitSpace s
  let rtSlice := strSlice.foldl
    (fun acc v =>
      let clean := (trimPunct v).map toLowerChar
      if badWords.contains clean then acc ++ [toChars "****"] else acc ++ [v])
    ([] : List Str)
  joinSpace rtSlice

/-- The chirp store, abstracting the chirps table reachable through
`cfg.db.CreateChirp`: the list of stored (sanitized) chirp bodies. -/
structure ChirpStore where
  chirps : List Str
  deriving DecidableEq

/-- Translation of the `POST /api/chirps` handler after a successful JSON
decode (src/main.go lines 119-149): a body longer than 140 units is rejected
with status 400 (message "Chirp is too long") before `CreateChirp` is
reached; otherwise the sanitized body is persisted and status 201 returned.
The returned pair is the store after the request and the HTTP status code. -/
def postChirpHandler (store : ChirpStore) (body : Str) : ChirpStore × Nat :=
  if body.length > 140 then (store, 400)
  else ({ chirps := store.chirps ++ [sanitize body] }, 201)

/-- Model of Go `sql.NullString` (fields `String` and `Valid`). -/
structure NullString where
  str : Str
  valid : Bool
  deriving DecidableEq

/-- Translation of the email field construction of the `POST /api/users`
handler (src/main.go lines 235-241): the string is passed through unchanged
and the field is valid (present) exactly when the input is non-empty. -/
def emailNullString (email : Str) : NullString :=
  { str := email, valid := email != [] }

/-- Stored password credential: a salt together with the digest of the salted
plaintext. -/
structure Credential where
  salt : Nat
  digest : Nat
  deriving DecidableEq

/-- Modelled from the spec: `HashPassword` lives in `internal/auth`, which is
not under src/.  Per the spec it "produces a salted, one-way cryptographic
hash suitable for storage".  The one-way digest primitive (bcrypt-class) is
abstracted as a function `h` of the salt and the plaintext; `HashPassword`
records the salt alongside the digest of the salted plaintext. -/
def HashPassword (h : Nat → Str → Nat) (salt : Nat) (plaintext : Str) : Credential :=
  { salt := salt, digest := h salt plaintext }

/-- Modelled from the spec: `CheckHashedPassword` (`internal/auth`, not under
src/) verifies a plaintext against a stored hash by recomputing the digest of
the plaintext under the stored salt and comparing; it "never throws on
mismatch; returns false". -/
def CheckHashedPassword (h : Nat → Str → Nat) (plaintext : Str) (cred : Credential) : Bool :=
  cred.digest == h cred.salt plaintext

/-! Lemmas about splitting and joining on single spaces. -/

lemma splitSpace_ne_nil (s : Str) : splitSpace s ≠ [] := by
  cases s with
  | nil => simp [splitSpace]
  | cons c cs =>
    simp only [splitSpace]
    by_cases h : c = ' ' <;> simp [h]

lemma splitSpace_cons_space (cs : Str) : splitSpace (' ' :: cs) = [] :: splitSpace cs := by
  simp [splitSpace]

lemma splitSpace_cons_of_ne (c : Char) (cs : Str) (h : c ≠ ' ')
    (t : Str) (ts : List Str) (he : splitSpace cs = t :: ts) :
    splitSpace (c :: cs) = (c :: t) :: ts := by
  simp [splitSpace, h, he]

lemma joinSpace_cons (t t2 : Str) (ts : List Str) :
    joinSpace (t :: t2 :: ts) = t ++ ' ' :: joinSpace (t2 :: ts) := by
  simp [joinSpace]

lemma joinSpace_splitSpace (s : Str) : joinSpace (splitSpace s) = s := by
  induction s with
  | nil => simp [splitSpace, joinSpace]
  | cons c cs ih =>
    obtain ⟨t, ts, he⟩ := List.exists_cons_of_ne_nil (splitSpace_ne_nil cs)
    rw [he] at ih
    by_cases h : c = ' '
    · subst h
      rw [splitSpace_cons_space, he, joinSpace_cons, ih]
      simp
    · rw [splitSpace_cons_of_ne c cs h t ts he]
      cases ts with
      | nil => simpa [joinSpace] using congrArg (c :: ·) ih
      | cons t2 ts2 =>
        rw [joinSpace_cons] at ih ⊢
        simp [ih]

lemma not_mem_splitSpace_space (s : Str) : ∀ t ∈ splitSpace s, ' ' ∉ t := by
  induction s with
  | nil => intro t ht; simp [splitSpace] at ht; simp [ht]
  | cons c cs ih =>
    intro t ht
    by_cases h : c = ' '
    · subst h
      rw [splitSpace_cons_space] at ht
      rcases List.mem_cons.mp ht with rfl | ht
      · simp
      · exact ih t ht
    · obtain ⟨t0, ts, he⟩ := List.exists_cons_of_ne_nil (splitSpace_ne_nil cs)
      rw [splitSpace_cons_of_ne c cs h t0 ts he] at ht
      rcases List.mem_cons.mp ht with rfl | ht
      · intro hm
        rcases List.mem_cons.mp hm with hm | hm
        · exact h hm.symm
        · exact ih t0 (by rw [he]; exact List.mem_cons_self _ _) hm
      · exact ih t (by rw [he]; exact List.mem_cons_of_mem _ ht)

lemma splitSpace_of_no_space (t : Str) (h : ' ' ∉ t) : splitSpace t = [t] := by
  induction t with
  | nil => simp [splitSpace]
  | cons c cs ih =>
    have hc : c ≠ ' ' := fun hcc => h (hcc ▸ List.mem_cons_self _ _)
    have hcs : ' ' ∉ cs := fun hm => h (List.mem_cons_of_mem _ hm)
    exact splitSpace_cons_of_ne c cs hc cs [] (ih hcs)

lemma splitSpace_append_space (t : Str) (h : ' ' ∉ t) (r : Str) :
    splitSpace (t ++ ' ' :: r) = t :: splitSpace r := by
  induction t with
  | nil => simpa using splitSpace_cons_space r
  | cons c cs ih =>
    have hc : c ≠ ' ' := fun hcc => h (hcc ▸ List.mem_cons_self _ _)
    have hcs : ' ' ∉ cs := fun hm => h (List.mem_cons_of_mem _ hm)
    have hrec := ih hcs
    simpa using splitSpace_cons_of_ne c (cs ++ ' ' :: r) hc cs (splitSpace r) hrec

lemma splitSpace_joinSpace (ts : List Str) (hne : ts ≠ [])
    (hsp : ∀ t ∈ ts, ' ' ∉ t) : splitSpace (joinSpace ts) = ts := by
  induction ts with
  | nil => exact absurd rfl hne
  | cons t ts ih =>
    cases ts with
    | nil =>
      simp only [joinSpace]
      exact splitSpace_of_no_space t (hsp t (List.mem_cons_self _ _))
    | cons t2 ts2 =>
      rw [joinSpace_cons,
        splitSpace_append_space t (hsp t (List.mem_cons_self _ _)),
        ih (by simp) (fun u hu => hsp u (List.mem_cons_of_mem _ hu))]

/-! Lemmas about the loop body of `sanitize`. -/

lemma sanitize_foldl_eq (l : List Str) (acc : List Str) :
    l.foldl
      (fun acc v =>
        let clean := (trimPunct v).map toLowerChar
        if badWords.contains clean then acc ++ [toChars "****"] else acc ++ [v])
      acc
    = acc ++ l.map maskToken := by
  induction l generalizing acc with
  | nil => simp
  | cons v l ih =>
    simp only [List.foldl_cons, List.map_cons, ih, maskToken]
    cases h : badWords.contains ((trimPunct v).map toLowerChar) <;> simp [h]

lemma sanitize_eq_map (s : Str) :
    sanitize s = joinSpace ((splitSpace s).map maskToken) := by
  simp only [sanitize, sanitize_foldl_eq, List.nil_append]

lemma maskToken_eq_or (v : Str) :
    maskToken v = v ∨ maskToken v = toChars "****" := by
  simp only [maskToken]
  cases h : badWords.contains ((trimPunct v).map toLowerChar) <;> simp [h]

lemma maskToken_mask : maskToken (toChars "****") = toChars "****" := by decide

lemma maskToken_idem (v : Str) : maskToken (maskToken v) = maskToken v := by
  by_cases h : badWords.contains ((trimPunct v).map toLowerChar) = true
  · have hv : maskToken v = toChars "****" := by
      simp only [maskToken]
      rw [if_pos h]
    rw [hv]
    exact maskToken_mask
  · have hv : maskToken v = v := by
      simp only [maskToken]
      rw [if_neg h]
    rw [hv]
    exact hv

lemma contains_maskToken_false (v : Str) :
    badWords.contains ((trimPunct (maskToken v)).map toLowerChar) = false := by
  simp only [maskToken]
  cases h : badWords.contains ((trimPunct v).map toLowerChar)
  · simpa using h
  · rw [if_pos rfl]
    decide

lemma no_space_map_maskToken (s : Str) :
    ∀ t ∈ (splitSpace s).map maskToken, ' ' ∉ t := by
  intro t ht
  obtain ⟨u, hu, rfl⟩ := List.mem_map.mp ht
  rcases maskToken_eq_or u with h | h <;> rw [h]
  · exact not_mem_splitSpace_space s u hu
  · decide

lemma splitSpace_sanitize (s : Str) :
    splitSpace (sanitize s) = (splitSpace s).map maskToken := by
  rw [sanitize_eq_map]
  exact splitSpace_joinSpace _ (by simpa using splitSpace_ne_nil s)
    (no_space_map_maskToken s)

lemma map_id_of_mem {α : Type} (l : List α) (f : α → α) (h : ∀ a ∈ l, f a = a) :
    l.map f = l := by
  induction l with
  | nil => rfl
  | cons a l ih =>
    rw [List.map_cons, h a (List.mem_cons_self _ _),
      ih (fun b hb => h b (List.mem_cons_of_mem _ hb))]

lemma forall₂_map_self {α β : Type} (r : α → β → Prop) (f : α → β)
    (h : ∀ a, r a (f a)) : ∀ l : List α, List.Forall₂ r l (l.map f)
  | [] => List.Forall₂.nil
  | a :: l => List.Forall₂.cons (h a) (forall₂_map_self r f h l)

lemma count_space_joinSpace (ts : List Str) (hne : ts ≠ [])
    (hsp : ∀ t ∈ ts, ' ' ∉ t) :
    (joinSpace ts).count ' ' = ts.length - 1 := by
  induction ts with
  | nil => exact absurd rfl hne
  | cons t ts ih =>
    cases ts with
    | nil =>
      simp only [joinSpace, List.length_cons, List.length_nil]
      simpa using List.count_eq_zero.mpr (hsp t (List.mem_cons_self _ _))
    | cons t2 ts2 =>
      rw [joinSpace_cons, List.count_append]
      have h0 : t.count ' ' = 0 :=
        List.count_eq_zero.mpr (hsp t (List.mem_cons_self _ _))
      have hrec := ih (by simp) (fun u hu => hsp u (List.mem_cons_of_mem _ hu))
      simp only [List.count_cons, h0, hrec]
      simp [List.length_cons]

/-! Claim theorems. -/

/-- C1: `sanitize` splits its input into space-separated tokens; each token is
trimmed of leading/trailing `.,!?`, lowercased, and compared for exact
equality against the blacklist `badWords = [kerfuffle, sharbert, fornax]`; on
a match the whole original token becomes the four-character mask `"****"`,
otherwise the original token appears unchanged; in particular
`sanitize "Kerfuffle!" = "****"`, `sanitize "Kerfuffle" = "****"` and
`sanitize "Kerfuffles" = "Kerfuffles"`. -/
theorem sanitize_masks_exact_blacklist_tokens :
    (∀ s : Str, sanitize s = joinSpace ((splitSpace s).map fun v =>
        if badWords.contains ((trimPunct v).map toLowerChar) then toChars "****" else v)) ∧
    (toChars "****").length = 4 ∧
    sanitize (toChars "Kerfuffle!") = toChars "****" ∧
    sanitize (toChars "Kerfuffle") = toChars "****" ∧
    sanitize (toChars "Kerfuffles") = toChars "Kerfuffles" := by
  refine ⟨?_, by decide, by decide, by decide, by decide⟩
  intro s
  rw [sanitize_eq_map]
  rfl

/-- C2: chirp creation fails with status 400 ("Chirp is too long") exactly
when the raw body length exceeds 140 units; a body of exactly 140 units
passes, one of 141 fails, and the empty body passes. -/
theorem chirp_length_validation_boundary :
    (∀ (store : ChirpStore) (body : Str),
      (postChirpHandler store body).2 = 400 ↔ body.length > 140) ∧
    (∀ store : ChirpStore, (postChirpHandler store (List.replicate 140 'a')).2 = 201) ∧
    (∀ store : ChirpStore, (postChirpHandler store (List.replicate 141 'a')).2 = 400) ∧
    (∀ store : ChirpStore, (postChirpHandler store []).2 = 201) := by
  refine ⟨?_, ?_, ?_, ?_⟩
  · intro store body
    by_cases h : body.length > 140
    · simp [postChirpHandler, h]
    · simp [postChirpHandler, h]
  · intro store
    simp [postChirpHandler]
  · intro store
    simp [postChirpHandler]
  · intro store
    simp [postChirpHandler]

/-- C3: for every digest primitive, salt and plaintext password, verifying the
plaintext against the credential produced by hashing it succeeds:
`CheckHashedPassword h P (HashPassword h salt P) = true`. -/
theorem check_hashed_password_of_hash (h : Nat → Str → Nat) (salt : Nat) (p : Str) :
    CheckHashedPassword h p (HashPassword h salt p) = true := by
  simp [CheckHashedPassword, HashPassword]

/-- C4: `sanitize` is idempotent: sanitizing an already-sanitized string is a
no-op, because the mask `"****"` is not itself blacklisted and every kept
token was already clean. -/
theorem sanitize_idempotent (s : Str) : sanitize (sanitize s) = sanitize s := by
  conv_lhs => rw [sanitize_eq_map, splitSpace_sanitize, List.map_map]
  rw [show maskToken ∘ maskToken = maskToken from funext maskToken_idem,
    ← sanitize_eq_map]

/-- C5 counterexample: consecutive spaces do NOT collapse through the
split/join of `sanitize`: on the input `"a  b"` (two consecutive spaces) the
output is `"a  b"` itself, not the single-space join `"a b"`. -/
theorem sanitize_consecutive_spaces_survive_cex :
    sanitize (toChars "a  b") = toChars "a  b" ∧
    sanitize (toChars "a  b") ≠ toChars "a b" := by
  exact ⟨by decide, by decide⟩

/-- C5 amended: `sanitize` splits on every single space, so consecutive
spaces yield empty tokens which are never masked; the join restores every
space, hence the number of space characters is preserved for every input and
runs of spaces survive, e.g. `sanitize "a  b" = "a  b"`. -/
theorem sanitize_preserves_space_count :
    (∀ s : Str, (sanitize s).count ' ' = s.count ' ') ∧
    sanitize (toChars "a  b") = toChars "a  b" := by
  refine ⟨?_, by decide⟩
  intro s
  conv_rhs => rw [← joinSpace_splitSpace s]
  rw [sanitize_eq_map,
    count_space_joinSpace _ (by simpa using splitSpace_ne_nil s) (no_space_map_maskToken s),
    count_space_joinSpace _ (splitSpace_ne_nil s) (not_mem_splitSpace_space s),
    List.length_map]

/-- C6 counterexample: sanitization can change the length of its input: the
input `"kerfuffle"` has length 9 but `sanitize "kerfuffle" = "****"` has
length 4. -/
theorem sanitize_length_change_cex :
    sanitize (toChars "kerfuffle") = toChars "****" ∧
    (sanitize (toChars "kerfuffle")).length = 4 ∧
    (toChars "kerfuffle").length = 9 := by
  exact ⟨by decide, by decide, by decide⟩

/-- C6 amended: sanitization may change the length of its input (replacing a
token by the 4-character mask changes length whenever the token's length is
not 4, e.g. `"kerfuffle"`); when no token of the input matches the blacklist,
`sanitize` returns its input unchanged and in particular preserves length. -/
theorem sanitize_id_of_no_blacklisted_token (s : Str)
    (h : ((splitSpace s).all
      fun v => !(badWords.contains ((trimPunct v).map toLowerChar))) = true) :
    sanitize s = s ∧ (sanitize s).length = s.length := by
  have hid : (splitSpace s).map maskToken = splitSpace s := by
    apply map_id_of_mem
    intro v hv
    have hb := List.all_eq_true.mp h v hv
    have hc : badWords.contains ((trimPunct v).map toLowerChar) = false := by
      simpa using hb
    simp only [maskToken]
    rw [if_neg (by rw [hc]; simp)]
  have hs : sanitize s = s := by
    rw [sanitize_eq_map, hid, joinSpace_splitSpace]
  exact ⟨hs, by rw [hs]⟩

set_option maxRecDepth 100000 in
/-- Witness for C6 amended at the concrete input `"Kerfuffles rule"`, which
contains no blacklisted token. -/
theorem sanitize_id_of_no_blacklisted_token_witness :
    (((splitSpace (toChars "Kerfuffles rule")).all
      fun v => !(badWords.contains ((trimPunct v).map toLowerChar))) = true) ∧
    sanitize (toChars "Kerfuffles rule") = toChars "Kerfuffles rule" ∧
    (sanitize (toChars "Kerfuffles rule")).length = (toChars "Kerfuffles rule").length :=
  ⟨by decide, (sanitize_id_of_no_blacklisted_token (toChars "Kerfuffles rule") (by decide)).1,
    (sanitize_id_of_no_blacklisted_token (toChars "Kerfuffles rule") (by decide)).2⟩

/-- C7: the email presence classification preserves the input string
unchanged and marks the field invalid (absent/null) exactly when the input is
the empty string. -/
theorem email_presence_classification (email : Str) :
    (emailNullString email).str = email ∧
    ((emailNullString email).valid = false ↔ email = []) := by
  constructor
  · rfl
  · simp [emailNullString]

/-- C8: when the request body exceeds 140 length units, the chirp handler
returns status 400 and the store is unchanged: the rejection happens before
`CreateChirp` is reached, so no chirp is created. -/
theorem post_chirp_rejects_before_persistence (store : ChirpStore) (body : Str)
    (h : body.length > 140) :
    postChirpHandler store body = (store, 400) := by
  simp [postChirpHandler, h]

/-- Witness for C8 at a 141-character body and the empty store. -/
theorem post_chirp_rejects_before_persistence_witness :
    (List.replicate 141 'a').length > 140 ∧
    postChirpHandler ⟨[]⟩ (List.replicate 141 'a') = (⟨[]⟩, 400) :=
  ⟨by simp,
    post_chirp_rejects_before_persistence ⟨[]⟩ (List.replicate 141 'a') (by simp)⟩

/-- C9: `sanitize` preserves token structure: the output has exactly as many
space-separated tokens as the input, and the output token at each position is
either the input token at that position unchanged or the mask `"****"`. -/
theorem sanitize_preserves_token_structure (s : Str) :
    (splitSpace (sanitize s)).length = (splitSpace s).length ∧
    List.Forall₂ (fun vin vout => vout = vin ∨ vout = toChars "****")
      (splitSpace s) (splitSpace (sanitize s)) := by
  rw [splitSpace_sanitize]
  exact ⟨List.length_map _ _,
    forall₂_map_self (fun vin vout => vout = vin ∨ vout = toChars "****") maskToken
      (fun v => maskToken_eq_or v) (splitSpace s)⟩

/-- C10: no token of the output of `sanitize`, after trimming the punctuation
cutset and lowercasing, is in the blacklist. -/
theorem sanitize_output_no_blacklisted_token (s : Str) :
    ((splitSpace (sanitize s)).all
      fun t => !(badWords.contains ((trimPunct t).map toLowerChar))) = true := by
  rw [splitSpace_sanitize]
  apply List.all_eq_true.mpr
  intro v hv
  obtain ⟨u, hu, rfl⟩ := List.mem_map.mp hv
  show (!(badWords.contains ((trimPunct (maskToken u)).map toLowerChar))) = true
  rw [contains_maskToken_false u]
  rfl

end Chirpy
